import Mathlib

/-
  Verification development for the `chapters` library (rssblue/chapters).

  The library converts between a canonical `Chapter` model and three external
  representations: a structured JSON chapters document, free-text episode
  descriptions, and ID3 chapter frames of MP3 files.

  Modelling conventions:
  * `chrono::Duration` is modelled as an `Int` counting milliseconds
    (the code only ever constructs and inspects durations at millisecond
    precision via `Duration::milliseconds` / `num_milliseconds`).
  * JSON numbers are modelled exactly as rationals (`ℚ`); the f64 seconds
    value `num_milliseconds() as f64 / 1000.0` is the rational ms/1000,
    which is exact for all durations in range, and `(f * 1000.0) as i64`
    is rational multiplication followed by truncation toward zero.
  * The generic serde/serde_json layer and the `url` and `id3` crates are
    external collaborators (per the design document); serde's field-level
    behaviour (`default`, `skip_serializing_if`, `Option` deserialization)
    is embedded faithfully at the level of per-field JSON values, and
    `url::Url` is modelled as an opaque normalized string for which
    parsing a previously serialized URL returns it unchanged.
-/

namespace Chapters

/-- Milliseconds, the precision at which the library uses `chrono::Duration`. -/
abbrev Duration := Int

/-- Model of `url::Url` (external crate): an already-normalized URL string. -/
structure Url where
  s : String
deriving DecidableEq, Repr

/-- Model of `url::Url::to_string` / `as_str`. -/
def Url.toString (u : Url) : String := u.s

/-- Model of `url::Url::parse` restricted to the property the codecs rely on:
parsing the serialization of a `Url` yields that `Url` back. Validity
checking of arbitrary strings lives in the external `url` crate. -/
def Url.parse (s : String) : Option Url := some ⟨s⟩

/-- `Image` from `src/lib.rs`: chapter art, currently only a URL variant. -/
inductive Image where
  | url (u : Url)
deriving DecidableEq, Repr

/-- `Link` from `src/lib.rs`: a web link with an optional title. -/
structure Link where
  url : Url
  title : Option String
deriving DecidableEq, Repr

/-- `RemoteEntity` from `src/lib.rs` (UUIDs modelled as strings). -/
inductive RemoteEntity where
  | feed (guid : String)
  | item (feed_guid : String) (guid : String)
deriving DecidableEq, Repr

/-- The canonical `Chapter` struct from `src/lib.rs`. -/
structure Chapter where
  start : Duration
  «end» : Option Duration
  title : Option String
  image : Option Image
  link : Option Link
  hidden : Bool
  remote_entity : Option RemoteEntity
deriving DecidableEq, Repr

/-- A JSON number as emitted by the codec: either a bare integer literal or
a decimal literal with an exact rational value. -/
inductive JNum where
  | int (n : Int)
  | dec (q : ℚ)
deriving DecidableEq, Repr

/-- The numeric value of an emitted JSON number. -/
def JNum.toRat : JNum → ℚ
  | .int n => (n : ℚ)
  | .dec q => q

/-- A field-level JSON value, as seen by the per-field (de)serializers. -/
inductive JVal where
  | num (n : JNum)
  | str (s : String)
  | bool (b : Bool)
  | null
deriving DecidableEq, Repr

/-- Truncation of a rational toward zero, the behaviour of Rust's `as i64`
cast applied to a finite floating value in range. -/
def ratTrunc (q : ℚ) : Int := q.num.tdiv (q.den : Int)

/-- Rust's saturating `f64 as i64` cast: truncate toward zero, clamping to
the `i64` range (the argument is never NaN in this codebase). -/
def f64_as_i64 (f : ℚ) : Int :=
  let t := ratTrunc f
  if t < -(2 ^ 63) then -(2 ^ 63) else if (2 ^ 63 - 1 : Int) < t then 2 ^ 63 - 1 else t

/-- Fuel-driven binary logarithm (the fuel only needs to exceed the number
of halvings, so `log2fuel n n` computes `⌊log₂ n⌋` for every `n ≥ 1`). -/
def log2fuel : Nat → Nat → Nat
  | 0, _ => 0
  | fuel + 1, n => if 2 ≤ n then log2fuel fuel (n / 2) + 1 else 0

/-- `⌊log₂ n⌋` (0 at 0), computable by kernel reduction. -/
def natLog2 (n : Nat) : Nat := log2fuel n n

/-- Round the fraction `num / den` to the nearest integer, ties to even —
the significand rounding step of IEEE-754 round-to-nearest-even. -/
def roundHalfEven (num den : Nat) : Nat :=
  let M0 := num / den
  let r := num % den
  if 2 * r < den then M0
  else if den < 2 * r then M0 + 1
  else if M0 % 2 = 0 then M0 else M0 + 1

/-- The binade exponent `⌊log₂ (n / b)⌋` of a positive rational `n / b`,
computed from the integer logarithms with a one-step correction. -/
def kOf (n b : Nat) : Int :=
  let k0 : Int := (natLog2 n : Int) - (natLog2 b : Int)
  if (if 0 ≤ k0 then b * 2 ^ k0.toNat ≤ n else b ≤ n * 2 ^ (-k0).toNat) then k0 else k0 - 1

/-- The rational `M * 2 ^ t`, built with kernel-computable operations. -/
def dyadicQ (M : Nat) (t : Int) : ℚ :=
  if 0 ≤ t then ((M * 2 ^ t.toNat : Nat) : ℚ) else mkRat (M : Int) (2 ^ (-t).toNat)

/-- Correctly rounded conversion of an exact rational to the nearest IEEE
binary64 value (round to nearest, ties to even), as an exact rational.
Models every f64 arithmetic result in this codebase: all values reachable
here are normal and far from overflow, so the normal-range formula (53-bit
significand) is the exact IEEE semantics for them. -/
def roundF64 (q : ℚ) : ℚ :=
  if q = 0 then 0
  else
    let n : Nat := q.num.natAbs
    let b : Nat := q.den
    let k : Int := kOf n b
    let M : Nat := roundHalfEven (n * 2 ^ (52 - k).toNat) (b * 2 ^ (k - 52).toNat)
    let mag : ℚ := dyadicQ M (k - 52)
    if q.num < 0 then -mag else mag

/-- The exact quotient `q / 1000` (the real-number result an f64 division
rounds). -/
def qdiv1000 (q : ℚ) : ℚ := mkRat q.num (q.den * 1000)

/-- The exact product `q * 1000` (the real-number result an f64
multiplication rounds). -/
def qmul1000 (q : ℚ) : ℚ := mkRat (q.num * 1000) q.den

/-- `serialization::float_to_duration` (seconds value to `Duration`):
`Duration::milliseconds((f * 1000.0) as i64)` — one rounded f64
multiplication, then a saturating truncating cast. -/
def float_to_duration (f : ℚ) : Duration := f64_as_i64 (roundF64 (qmul1000 f))

/-- `serialization::duration_to_float`: the seconds value is the f64
`num_milliseconds() as f64 / 1000.0` (an i64-to-f64 rounding followed by a
rounded f64 division); it is emitted as a bare integer when it has no
fractional part (`float.fract() == 0.0`, i.e. the value is an integer),
and as a decimal (the f64's exact value) otherwise. -/
def duration_to_float (d : Duration) : JNum :=
  let float : ℚ := roundF64 (qdiv1000 (roundF64 ((d : ℚ))))
  if float.den = 1 then JNum.int (f64_as_i64 float) else JNum.dec float

/-- `PodcastNamespaceChapter` from `src/lib.rs` (typed view of one record). -/
structure PodcastNamespaceChapter where
  start_time : Duration
  end_time : Option Duration
  title : Option String
  img : Option Url
  url : Option Url
  toc : Option Bool
deriving DecidableEq, Repr

/-- `impl From<PodcastNamespaceChapter> for Chapter` from `src/lib.rs`. -/
def chapterOfPNC (p : PodcastNamespaceChapter) : Chapter :=
  { start := p.start_time
    «end» := p.end_time
    title := p.title
    image := p.img.map Image.url
    link := p.url.map (fun url => { url := url, title := none })
    hidden := !(p.toc.getD true)
    remote_entity := none }

/-- `impl From<&Chapter> for PodcastNamespaceChapter` from `src/lib.rs`. -/
def pncOfChapter (c : Chapter) : PodcastNamespaceChapter :=
  { start_time := c.start
    end_time := c.«end»
    title := c.title
    img := match c.image with
      | some (Image.url u) => some u
      | _ => none
    url := c.link.map (fun l => l.url)
    toc := if c.hidden then some false else none }

/-- One chapter record of the structured document, at the level of raw
field-level JSON values (`none` means the key is absent). -/
structure RawChapterRecord where
  startTime : Option JVal
  endTime : Option JVal
  title : Option JVal
  img : Option JVal
  url : Option JVal
  toc : Option JVal
deriving DecidableEq, Repr

/-- The structured chapters document `{ version, chapters }`. -/
structure RawDocument where
  version : String
  chapters : List RawChapterRecord
deriving DecidableEq, Repr

/-- `f64::deserialize`: succeeds exactly on JSON numbers, producing the
binary64 value nearest the decimal in the document. -/
def decodeJsonNumber (v : JVal) : Except String ℚ :=
  match v with
  | .num n => .ok (roundF64 n.toRat)
  | _ => .error "invalid type: expected f64"

/-- `Option<String>` deserialization with serde `default` (used for `title`):
the key may be absent or null; a non-string, non-null value is a hard error. -/
def decodeTitle (v : Option JVal) : Except String (Option String) :=
  match v with
  | none => .ok none
  | some JVal.null => .ok none
  | some (JVal.str s) => .ok (some s)
  | some _ => .error "invalid type: expected a string"

/-- `serialization::string_to_url` with serde `default` (used for `img` and
`url`): absent key means `None`; a present value must be a string (hard
error otherwise); a string that fails URL parsing is silently dropped. -/
def decodeUrlField (v : Option JVal) : Except String (Option Url) :=
  match v with
  | none => .ok none
  | some (JVal.str s) => .ok (Url.parse s)
  | some _ => .error "invalid type: expected a string"

/-- `Option<bool>` deserialization with serde `default` (used for `toc`). -/
def decodeToc (v : Option JVal) : Except String (Option Bool) :=
  match v with
  | none => .ok none
  | some JVal.null => .ok none
  | some (JVal.bool b) => .ok (some b)
  | some _ => .error "invalid type: expected a boolean"

/-- `serialization::float_to_duration_option` combined with serde `default`
for the optional `endTime` field: an absent key or a JSON `null` gives
`None`, a number gives `Some`, and any other value makes
`Option::<f64>::deserialize` fail, which the `Err(_) => Ok(None)` arm turns
into `None`. -/
def float_to_duration_option (v : Option JVal) : Option Duration :=
  match v with
  | none => none
  | some (JVal.num n) => some (float_to_duration (roundF64 n.toRat))
  | some _ => none

/-- Deserialization of one `PodcastNamespaceChapter` record.
`startTime` is required and must be a number (`float_to_duration`);
`endTime` uses `float_to_duration_option`, which never fails. -/
def decodeRecord (r : RawChapterRecord) : Except String PodcastNamespaceChapter :=
  match r.startTime with
  | none => .error "missing field startTime"
  | some sv =>
    match decodeJsonNumber sv with
    | .error e => .error e
    | .ok sq =>
      let end_time : Option Duration := float_to_duration_option r.endTime
      match decodeTitle r.title with
      | .error e => .error e
      | .ok title =>
        match decodeUrlField r.img with
        | .error e => .error e
        | .ok img =>
          match decodeUrlField r.url with
          | .error e => .error e
          | .ok url =>
            match decodeToc r.toc with
            | .error e => .error e
            | .ok toc =>
              .ok { start_time := float_to_duration sq
                    end_time := end_time
                    title := title
                    img := img
                    url := url
                    toc := toc }

/-- Serde serialization of one `PodcastNamespaceChapter` record: `startTime`
always emitted via `duration_to_float`; `endTime`, `img`, `url`, `toc`
skipped when `None` (`skip_serializing_if`); `title` has no skip attribute,
so `None` is emitted as `null`. -/
def encodeRecord (p : PodcastNamespaceChapter) : RawChapterRecord :=
  { startTime := some (JVal.num (duration_to_float p.start_time))
    endTime := p.end_time.map (fun d => JVal.num (duration_to_float d))
    title := some (match p.title with
      | some s => JVal.str s
      | none => JVal.null)
    img := p.img.map (fun u => JVal.str u.toString)
    url := p.url.map (fun u => JVal.str u.toString)
    toc := p.toc.map JVal.bool }

/-- Sequential decoding of the `chapters` array: the first failing record
aborts the whole parse (serde `Vec` deserialization). -/
def decodeRecords : List RawChapterRecord → Except String (List PodcastNamespaceChapter)
  | [] => .ok []
  | r :: rs =>
    match decodeRecord r with
    | .error e => .error e
    | .ok p =>
      match decodeRecords rs with
      | .error e => .error e
      | .ok ps => .ok (p :: ps)

/-- `from_json` from `src/lib.rs`, at the level of the parsed document tree
(the byte-level JSON parser is an external collaborator). -/
def from_json (doc : RawDocument) : Except String (List Chapter) :=
  (decodeRecords doc.chapters).map (List.map chapterOfPNC)

/-- `to_json` from `src/lib.rs`, at the level of the document tree. -/
def to_json (chapters : List Chapter) : RawDocument :=
  { version := "1.2.0"
    chapters := chapters.map (fun c => encodeRecord (pncOfChapter c)) }

/-- A chapter whose fields are all representable in the structured-document
schema: its link (if any) carries no title, and it has no remote entity. -/
def Chapter.jsonRepresentable (c : Chapter) : Bool :=
  (match c.link with
   | some l => l.title.isNone
   | none => true) && c.remote_entity.isNone

/-- A millisecond count whose seconds value (`d / 1000`) is exactly
representable as a binary64 number: divisible by 125 (so the seconds value
is a dyadic rational) and below 2^53 (so it fits the 53-bit significand). -/
def f64ExactMs (d : Duration) : Bool := d % 125 == 0 && d.natAbs < 2 ^ 53

/-- `TimestampType` from `src/lib.rs`: the four recognized timestamp
styles of episode descriptions. -/
inductive TimestampType where
  | MmSs
  | HhMmSs
  | MmSsParentheses
  | HhMmSsParentheses
deriving DecidableEq, Repr

/-- The regex character class `[.!?\- ]`: a separator between the timestamp
and the title text. -/
def sepChar (c : Char) : Bool :=
  c == '.' || c == '!' || c == '?' || c == '-' || c == ' '

/-- The regex character class `[0-5]`. -/
def isZeroToFive (c : Char) : Bool := '0' ≤ c && c ≤ '5'

/-- The `\d` character class of the `regex` crate: Unicode-aware by
default, it matches the whole decimal-digit general category `Nd`, not
only the ASCII digits (this is the `Nd` range table of Unicode 15.0). -/
def isNd (c : Char) : Bool :=
  let n := c.toNat
  (0x30 <= n && n <= 0x39) || (0x660 <= n && n <= 0x669) ||
    (0x6F0 <= n && n <= 0x6F9) || (0x7C0 <= n && n <= 0x7C9) ||
    (0x966 <= n && n <= 0x96F) || (0x9E6 <= n && n <= 0x9EF) ||
    (0xA66 <= n && n <= 0xA6F) || (0xAE6 <= n && n <= 0xAEF) ||
    (0xB66 <= n && n <= 0xB6F) || (0xBE6 <= n && n <= 0xBEF) ||
    (0xC66 <= n && n <= 0xC6F) || (0xCE6 <= n && n <= 0xCEF) ||
    (0xD66 <= n && n <= 0xD6F) || (0xDE6 <= n && n <= 0xDEF) ||
    (0xE50 <= n && n <= 0xE59) || (0xED0 <= n && n <= 0xED9) ||
    (0xF20 <= n && n <= 0xF29) || (0x1040 <= n && n <= 0x1049) ||
    (0x1090 <= n && n <= 0x1099) || (0x17E0 <= n && n <= 0x17E9) ||
    (0x1810 <= n && n <= 0x1819) || (0x1946 <= n && n <= 0x194F) ||
    (0x19D0 <= n && n <= 0x19D9) || (0x1A80 <= n && n <= 0x1A89) ||
    (0x1A90 <= n && n <= 0x1A99) || (0x1B50 <= n && n <= 0x1B59) ||
    (0x1BB0 <= n && n <= 0x1BB9) || (0x1C40 <= n && n <= 0x1C49) ||
    (0x1C50 <= n && n <= 0x1C59) || (0xA620 <= n && n <= 0xA629) ||
    (0xA8D0 <= n && n <= 0xA8D9) || (0xA900 <= n && n <= 0xA909) ||
    (0xA9D0 <= n && n <= 0xA9D9) || (0xA9F0 <= n && n <= 0xA9F9) ||
    (0xAA50 <= n && n <= 0xAA59) || (0xABF0 <= n && n <= 0xABF9) ||
    (0xFF10 <= n && n <= 0xFF19) || (0x104A0 <= n && n <= 0x104A9) ||
    (0x10D30 <= n && n <= 0x10D39) || (0x11066 <= n && n <= 0x1106F) ||
    (0x110F0 <= n && n <= 0x110F9) || (0x11136 <= n && n <= 0x1113F) ||
    (0x111D0 <= n && n <= 0x111D9) || (0x112F0 <= n && n <= 0x112F9) ||
    (0x11450 <= n && n <= 0x11459) || (0x114D0 <= n && n <= 0x114D9) ||
    (0x11650 <= n && n <= 0x11659) || (0x116C0 <= n && n <= 0x116C9) ||
    (0x11730 <= n && n <= 0x11739) || (0x118E0 <= n && n <= 0x118E9) ||
    (0x11950 <= n && n <= 0x11959) || (0x11C50 <= n && n <= 0x11C59) ||
    (0x11D50 <= n && n <= 0x11D59) || (0x11DA0 <= n && n <= 0x11DA9) ||
    (0x11F50 <= n && n <= 0x11F59) || (0x16A60 <= n && n <= 0x16A69) ||
    (0x16AC0 <= n && n <= 0x16AC9) || (0x16B50 <= n && n <= 0x16B59) ||
    (0x1D7CE <= n && n <= 0x1D7FF) || (0x1E140 <= n && n <= 0x1E149) ||
    (0x1E2F0 <= n && n <= 0x1E2F9) || (0x1E4F0 <= n && n <= 0x1E4F9) ||
    (0x1E950 <= n && n <= 0x1E959) || (0x1FBF0 <= n && n <= 0x1FBF9)

/-- Numeric value of an ASCII decimal digit character. -/
def digitVal (c : Char) : Int := (c.toNat : Int) - ('0'.toNat : Int)

/-- Match `[0-5]\d:[0-5]\d` (the `minutes` and `seconds` groups) at the
front of the line. The regex only classifies characters — `\d` admits any
Unicode decimal digit — so the captured characters are returned as they
stand; numeric interpretation happens later, in `parse_timestamp`. -/
def matchMS : List Char → Option ((Char × Char) × (Char × Char) × List Char)
  | m1 :: m2 :: c :: s1 :: s2 :: rest =>
    if isZeroToFive m1 && isNd m2 && c == ':' && isZeroToFive s1 && isNd s2 then
      some ((m1, m2), (s1, s2), rest)
    else none
  | _ => none

/-- Match `\d{2}:[0-5]\d:[0-5]\d` (the `hours`, `minutes` and `seconds`
groups) at the front of the line, capturing characters as in `matchMS`. -/
def matchHMS :
    List Char → Option ((Char × Char) × (Char × Char) × (Char × Char) × List Char)
  | h1 :: h2 :: c1 :: m1 :: m2 :: c2 :: s1 :: s2 :: rest =>
    if isNd h1 && isNd h2 && c1 == ':' && isZeroToFive m1 && isNd m2 &&
        c2 == ':' && isZeroToFive s1 && isNd s2 then
      some ((h1, h2), (m1, m2), (s1, s2), rest)
    else none
  | _ => none

/-- Match the anchored timestamp pattern of one notation at the front of
the line, returning the `hours` (absent for the `MM:SS` notations),
`minutes` and `seconds` capture groups and the remaining characters. -/
def timestampCapture (timestamp_type : TimestampType) (cs : List Char) :
    Option (Option (Char × Char) × (Char × Char) × (Char × Char) × List Char) :=
  match timestamp_type with
  | .MmSs =>
    (matchMS cs).map (fun r => (none, r.1, r.2.1, r.2.2))
  | .HhMmSs =>
    (matchHMS cs).map (fun r => (some r.1, r.2.1, r.2.2.1, r.2.2.2))
  | .MmSsParentheses =>
    match cs with
    | c :: rest =>
      if c == '(' then
        (matchMS rest).bind (fun r =>
          match r.2.2 with
          | c2 :: rest2 => if c2 == ')' then some (none, r.1, r.2.1, rest2) else none
          | [] => none)
      else none
    | [] => none
  | .HhMmSsParentheses =>
    match cs with
    | c :: rest =>
      if c == '(' then
        (matchHMS rest).bind (fun r =>
          match r.2.2.2 with
          | c2 :: rest2 =>
            if c2 == ')' then some (some r.1, r.2.1, r.2.2.1, rest2) else none
          | [] => none)
      else none
    | [] => none

/-- The suffix pattern `[.!?\- ]+(?P<text>.+)$` after the timestamp: at least
one separator character, then a nonempty `text` capture running to the end
of the line. With leftmost-first (greedy) semantics the separator run takes
the maximal separator prefix, giving back its last character when the rest
of the line would otherwise be empty. -/
def textCapture (rest : List Char) : Option String :=
  match rest with
  | [] => none
  | c :: _ =>
    if sepChar c then
      let k := (rest.takeWhile sepChar).length
      if k < rest.length then some ⟨rest.drop k⟩
      else if 2 ≤ rest.length then some ⟨rest.drop (rest.length - 1)⟩
      else none
    else none

/-- The named capture groups of a successful match of one notation's full
line pattern (`{timestamp}[.!?\- ]+(?P<text>.+)$`), before any numeric
parsing. -/
structure LineCaptures where
  hours : Option (Char × Char)
  minutes : Char × Char
  seconds : Char × Char
  text : String
deriving DecidableEq, Repr

/-- `re.captures(line)` for one notation's full line pattern: the timestamp
groups followed by the separator-and-text suffix. -/
def lineCaptures (timestamp_type : TimestampType) (cs : List Char) :
    Option LineCaptures :=
  (timestampCapture timestamp_type cs).bind (fun r =>
    (textCapture r.2.2.2).map (fun text =>
      { hours := r.1, minutes := r.2.1, seconds := r.2.2.1, text := text }))

/-- Rust `str::parse::<i64>`: an optional sign followed by at least one
ASCII decimal digit, with the value in the `i64` range; any other
character — including the non-ASCII decimal digits admitted by `\d` —
makes the parse fail. -/
def rustParseI64 (s : String) : Option Int :=
  match s.toList with
  | [] => none
  | c :: rest =>
    let ds := if c == '-' || c == '+' then rest else c :: rest
    let sign : Int := if c == '-' then -1 else 1
    if !ds.isEmpty && ds.all Char.isDigit then
      let v : Int := sign * ds.foldl (fun a d => 10 * a + digitVal d) 0
      if -(2 ^ 63) ≤ v && v ≤ 2 ^ 63 - 1 then some v else none
    else none

/-- The `parse_i64` closure of `parse_timestamp`: an absent capture group
counts as 0 (`unwrap_or(Ok(0))`); a present one goes through
`str::parse::<i64>`. -/
def parse_i64 (capture : Option String) : Except String Int :=
  match capture with
  | none => .ok 0
  | some s =>
    match rustParseI64 s with
    | some v => .ok v
    | none => .error "invalid digit found in string"

/-- `parse_timestamp` from `src/lib.rs`:
`Duration::hours(hours) + Duration::minutes(minutes) +
Duration::seconds(seconds)` in milliseconds, from the captured groups;
it fails when a captured group is not a valid ASCII `i64` literal. -/
def parse_timestamp (caps : LineCaptures) : Except String Duration := do
  let pairStr := fun (p : Char × Char) => String.mk [p.1, p.2]
  let hours ← parse_i64 (caps.hours.map pairStr)
  let minutes ← parse_i64 (some (pairStr caps.minutes))
  let seconds ← parse_i64 (some (pairStr caps.seconds))
  return 3600000 * hours + 60000 * minutes + 1000 * seconds

/-- The Unicode `White_Space` property, the class Rust `str::trim`
removes (`char::is_whitespace`). -/
def rustIsWhitespace (c : Char) : Bool :=
  let n := c.toNat
  (0x9 <= n && n <= 0xD) || n == 0x20 || n == 0x85 || n == 0xA0 || n == 0x1680 ||
    (0x2000 <= n && n <= 0x200A) || n == 0x2028 || n == 0x2029 || n == 0x202F ||
    n == 0x205F || n == 0x3000

/-- Whitespace trimming of both ends (Rust `str::trim`), over characters. -/
def trimChars (s : String) : String :=
  ⟨((s.toList.dropWhile rustIsWhitespace).reverse.dropWhile rustIsWhitespace).reverse⟩

/-- The `parse_line` closure of `from_description`: the locked notation's
full line pattern must match (`re.captures(line)`), and then the captured
timestamp must parse (`parse_timestamp(&captures).ok()?`) — a line whose
timestamp matched through a non-ASCII `\d` digit reaches this point and
fails here, yielding `None`. The chapter carries the parsed start and the
trimmed `text` capture as title. -/
def parse_line (line : String) (timestamp_type : TimestampType) : Option Chapter :=
  (lineCaptures timestamp_type line.toList).bind (fun caps =>
    (parse_timestamp caps).toOption.map (fun start =>
      { start := start
        «end» := none
        title := some (trimChars caps.text)
        image := none
        link := none
        hidden := false
        remote_entity := none }))

/-- `TimestampType::from_line`: after the cheap first-character check
(`(` or `is_numeric`), return the first of the four notations whose full
line pattern matches — `re.captures(line).is_some()`, the bare regex
match, with no numeric parsing: a timestamp written with non-ASCII `\d`
digits does lock the notation in. Rust's `is_numeric` covers the whole
Unicode `Number` category; the model uses its decimal-digit subclass `Nd`,
which is equivalent here: a first character in `Number` outside `Nd` can
begin none of the anchored patterns (each opens with `[0-5]`, with `\d`
= `Nd`, or with a parenthesis), so on those characters both the guard
variants end in no match. -/
def TimestampType.from_line (line : String) : Option TimestampType :=
  match line.toList with
  | [] => none
  | c :: _ =>
    if c == '(' || isNd c then
      [TimestampType.MmSs, TimestampType.HhMmSs, TimestampType.MmSsParentheses,
        TimestampType.HhMmSsParentheses].find?
        (fun t => (lineCaptures t line.toList).isSome)
    else none

/-- The scanning loop of `from_description`: lines are processed in order;
while no notation is locked, `from_line` attempts detection (non-matching
lines are skipped as prose); once a notation is locked, each line must
parse with it or the loop breaks. -/
def fromDescriptionLoop : List String → Option TimestampType → List Chapter
  | [], _ => []
  | line :: rest, none =>
    match TimestampType.from_line line with
    | none => fromDescriptionLoop rest none
    | some tt =>
      match parse_line line tt with
      | some ch => ch :: fromDescriptionLoop rest (some tt)
      | none => []
  | line :: rest, some tt =>
    match parse_line line tt with
    | some ch => ch :: fromDescriptionLoop rest (some tt)
    | none => []

/-- Rust `str::lines`: split at newlines, dropping a final empty segment
produced by a trailing newline, and stripping a trailing carriage return
from each line. -/
def rustLines (s : String) : List String :=
  let parts := s.splitOn "\n"
  let parts := if parts.getLast? == some "" then parts.dropLast else parts
  parts.map (fun l => if l.endsWith "\r" then l.dropRight 1 else l)

/-- `from_description` from `src/lib.rs`. -/
def from_description (description : String) : Except String (List Chapter) :=
  .ok (fromDescriptionLoop ((rustLines description).map trimChars) none)

/-- Rust `format!` with the `{:02}` specifier: pad to width two with zeros. -/
def pad2 (n : Int) : String :=
  if 0 ≤ n ∧ n < 10 then "0" ++ toString n else toString n

/-- `duration_to_timestamp` from `src/lib.rs`: `num_hours`, `num_minutes`
and `num_seconds` truncate toward zero. -/
def duration_to_timestamp (duration : Duration) (timestamp_type : TimestampType) : String :=
  let hours := duration.tdiv 3600000
  let minutes := duration.tdiv 60000 - hours * 60
  let seconds := duration.tdiv 1000 - minutes * 60 - hours * 3600
  match timestamp_type with
  | .MmSs => pad2 minutes ++ ":" ++ pad2 seconds
  | .HhMmSs => pad2 hours ++ ":" ++ pad2 minutes ++ ":" ++ pad2 seconds
  | .MmSsParentheses => "(" ++ pad2 minutes ++ ":" ++ pad2 seconds ++ ")"
  | .HhMmSsParentheses =>
    "(" ++ pad2 hours ++ ":" ++ pad2 minutes ++ ":" ++ pad2 seconds ++ ")"

/-- The emission loop of `to_description`: each chapter must have a title
(`ok_or("Chapter title is missing")?`); the emitted line is
`format!("{} {}", timestamp, title)` followed by a newline. -/
def descLoop (timestamp_type : TimestampType) (acc : String) :
    List Chapter → Except String String
  | [] => .ok acc
  | c :: rest =>
    match c.title with
    | none => .error "Chapter title is missing"
    | some title =>
      descLoop timestamp_type
        (acc ++ (duration_to_timestamp c.start timestamp_type ++ " " ++ title) ++ "\n") rest

/-- `to_description` from `src/lib.rs`: pick `HH:MM:SS` when any chapter
starts at or after one hour (`Duration::hours(1)` = 3600000 ms), else
`MM:SS`, then emit one line per chapter in input order. -/
def to_description (chapters : List Chapter) : Except String String :=
  let at_least_an_hour := chapters.any (fun c => decide (3600000 ≤ c.start))
  let timestamp_type :=
    if at_least_an_hour then TimestampType.HhMmSs else TimestampType.MmSs
  descLoop timestamp_type "" chapters

/-- One line of the emitted description, for stating `to_description`'s
output shape. -/
def descLine (timestamp_type : TimestampType) (c : Chapter) : String :=
  duration_to_timestamp c.start timestamp_type ++ " " ++ c.title.getD "" ++ "\n"

/-- Content of one ID3 sub-frame of a chapter frame, as inspected by
`from_mp3_file` (`id3::Content`); variants the code ignores are `other`. -/
inductive Id3Content where
  | text (s : String)
  | link (url : String)
  | extendedLink (link : String) (description : String)
  | other
deriving DecidableEq, Repr

/-- An `id3::frame::Chapter` frame: element id, start/end offsets in
milliseconds (u32), and nested sub-frames. -/
structure Id3Chapter where
  element_id : String
  start_time : Nat
  end_time : Nat
  frames : List Id3Content
deriving DecidableEq, Repr

/-- The sub-frame scan of `from_mp3_file`: a text sub-frame sets the title
(last one wins), a link or extended-link sub-frame sets the link (last one
wins, URL parse failure is a hard error); an extended link's description is
trimmed and a blank description means no link title. -/
def readSubframes : Option String × Option Link → List Id3Content →
    Except String (Option String × Option Link)
  | acc, [] => .ok acc
  | (title, link), fr :: rest =>
    match fr with
    | .text s => readSubframes (some s, link) rest
    | .link u =>
      match Url.parse u with
      | some uu => readSubframes (title, some { url := uu, title := none }) rest
      | none => .error "relative URL without a base"
    | .extendedLink l d =>
      match Url.parse l with
      | some uu =>
        readSubframes
          (title, some { url := uu,
                         title := if trimChars d == "" then none else some (trimChars d) }) rest
      | none => .error "relative URL without a base"
    | .other => readSubframes (title, link) rest

/-- Reading one chapter frame in `from_mp3_file`: start and end offsets
become millisecond durations, and an end equal to the start is treated as
absent (instant markers). -/
def readId3Chapter (f : Id3Chapter) : Except String Chapter :=
  let start : Duration := (f.start_time : Int)
  let temp_end : Duration := (f.end_time : Int)
  let e : Option Duration := if temp_end == start then none else some temp_end
  match readSubframes (none, none) f.frames with
  | .error err => .error err
  | .ok tl =>
    .ok { start := start
          «end» := e
          title := tl.1
          image := none
          link := tl.2
          hidden := false
          remote_entity := none }

/-- The frame-collection loop of `from_mp3_file`: the first frame error
aborts the read. -/
def readFrames : List Id3Chapter → Except String (List Chapter)
  | [] => .ok []
  | f :: fs =>
    match readId3Chapter f with
    | .error e => .error e
    | .ok c =>
      match readFrames fs with
      | .error e => .error e
      | .ok cs => .ok (c :: cs)

/-- The final `chapters.sort_by(|a, b| a.start.cmp(&b.start))`: Rust's
`sort_by` is a stable sort, whose output is uniquely determined (ascending
by start, equal starts in input order); insertion sort realizes it. -/
def sortByStart (l : List Chapter) : List Chapter :=
  List.insertionSort (fun a b => a.start ≤ b.start) l

/-- `from_mp3_file` from `src/lib.rs`, at the level of the chapter frames
found in the file's ID3 tag (file access and the byte-level `id3` container
are external collaborators). -/
def from_mp3_tag (frames : List Id3Chapter) : Except String (List Chapter) :=
  (readFrames frames).map sortByStart

/-- The chapter frame synthesized by `to_mp3_file` for the chapter at
0-based index `i`: element id `chp<i+1>`, start in milliseconds (`as u32`
wraps modulo 2^32), end equal to the start when absent, a `TIT2` text
sub-frame when the title is present and a `WXXX` extended-link sub-frame
when the link is present (description is the link title or empty). -/
def writeId3Chapter (i : Nat) (c : Chapter) : Id3Chapter :=
  { element_id := "chp" ++ toString (i + 1)
    start_time := (c.start.emod 4294967296).toNat
    end_time :=
      (match c.«end» with
        | some e => e.emod 4294967296
        | none => c.start.emod 4294967296).toNat
    frames :=
      (match c.title with
        | some t => [Id3Content.text t]
        | none => []) ++
      (match c.link with
        | some l => [Id3Content.extendedLink l.url.toString (l.title.getD "")]
        | none => []) }

/-- The frame list written by `to_mp3_file`: chapters in caller order, ids
`chp1`, `chp2`, ... -/
def to_mp3_frames (chapters : List Chapter) : List Id3Chapter :=
  chapters.enum.map (fun p => writeId3Chapter p.1 p.2)

/-- Decidable equality of results, for evaluating codec runs on concrete
inputs. -/
instance exceptDecEq {ε α : Type} [DecidableEq ε] [DecidableEq α] :
    DecidableEq (Except ε α) := fun x y =>
  match x, y with
  | .ok a, .ok b =>
    if h : a = b then isTrue (by rw [h])
    else isFalse (by intro hh; injection hh; contradiction)
  | .error e, .error f =>
    if h : e = f then isTrue (by rw [h])
    else isFalse (by intro hh; injection hh; contradiction)
  | .ok _, .error _ => isFalse (fun hh => Except.noConfusion hh)
  | .error _, .ok _ => isFalse (fun hh => Except.noConfusion hh)

instance : IsTotal Chapter (fun a b => a.start ≤ b.start) :=
  ⟨fun a b => le_total a.start b.start⟩

instance : IsTrans Chapter (fun a b => a.start ≤ b.start) :=
  ⟨fun _ _ _ hab hbc => le_trans hab hbc⟩

lemma ratTrunc_intCast (n : Int) : ratTrunc ((n : ℚ)) = n := by
  unfold ratTrunc
  rw [Rat.num_intCast, Rat.den_intCast, Nat.cast_one, Int.tdiv_one]

-- natLog2 bounds -------------------------------------------------------

lemma log2fuel_spec : ∀ (fuel n : Nat), n ≤ fuel → 1 ≤ n →
    2 ^ log2fuel fuel n ≤ n ∧ n < 2 ^ (log2fuel fuel n + 1) := by
  intro fuel
  induction fuel with
  | zero => intro n h1 h2; omega
  | succ f ih =>
    intro n h1 h2
    by_cases h : 2 ≤ n
    · have hrec := ih (n / 2) (by omega) (by omega)
      simp only [log2fuel, if_pos h]
      have hp : 2 ^ (log2fuel f (n / 2) + 1) = 2 * 2 ^ (log2fuel f (n / 2)) := by ring
      have hp2 : 2 ^ (log2fuel f (n / 2) + 1 + 1) = 2 * 2 ^ (log2fuel f (n / 2) + 1) := by ring
      omega
    · simp only [log2fuel, if_neg h]
      norm_num
      omega

lemma natLog2_le {n : Nat} (h : 1 ≤ n) : 2 ^ natLog2 n ≤ n :=
  (log2fuel_spec n n le_rfl h).1

lemma natLog2_lt {n : Nat} (h : 1 ≤ n) : n < 2 ^ (natLog2 n + 1) :=
  (log2fuel_spec n n le_rfl h).2

lemma natLog2_two_pow (j : Nat) : natLog2 (2 ^ j) = j := by
  have h0 : (1 : Nat) ≤ 2 ^ j := Nat.one_le_two_pow
  have h1 := natLog2_le h0
  have h2 := natLog2_lt h0
  have h3 : natLog2 (2 ^ j) ≤ j := by
    by_contra hc
    push_neg at hc
    have : 2 ^ (j + 1) ≤ 2 ^ natLog2 (2 ^ j) := Nat.pow_le_pow_right (by norm_num) hc
    have : 2 ^ j < 2 ^ j := by
      calc 2 ^ j < 2 ^ (j + 1) := by
            have : (2:Nat) ^ j * 1 < 2 ^ j * 2 := by omega
            calc (2:Nat) ^ j < 2 ^ j * 2 := by omega
              _ = 2 ^ (j + 1) := by ring
        _ ≤ 2 ^ natLog2 (2 ^ j) := this
        _ ≤ 2 ^ j := h1
    omega
  have h4 : j ≤ natLog2 (2 ^ j) := by
    by_contra hc
    push_neg at hc
    have : 2 ^ (natLog2 (2 ^ j) + 1) ≤ 2 ^ j := Nat.pow_le_pow_right (by norm_num) hc
    omega
  omega

lemma natLog2_lt_of_lt {n c : Nat} (hn : 1 ≤ n) (h : n < 2 ^ c) : natLog2 n < c := by
  by_contra hc
  push_neg at hc
  have h2 : 2 ^ c ≤ 2 ^ natLog2 n := Nat.pow_le_pow_right (by norm_num) hc
  have h3 := natLog2_le hn
  omega

-- roundHalfEven --------------------------------------------------------

lemma roundHalfEven_near (num den : Nat) (hden : 1 ≤ den) :
    2 * roundHalfEven num den * den ≤ 2 * num + den ∧
    2 * num ≤ 2 * roundHalfEven num den * den + den := by
  have hmod : den * (num / den) + num % den = num := Nat.div_add_mod num den
  have hlt : num % den < den := Nat.mod_lt _ (by omega)
  unfold roundHalfEven
  dsimp only
  generalize hQ : num / den = Q at *
  generalize hR : num % den = R at *
  split_ifs with h1 h2 h3 <;>
    constructor <;> nlinarith [hmod, hlt]

lemma roundHalfEven_exact (num den : Nat) (hden : 1 ≤ den) (hdvd : den ∣ num) :
    roundHalfEven num den = num / den := by
  obtain ⟨c, rfl⟩ := hdvd
  unfold roundHalfEven
  dsimp only
  rw [Nat.mul_mod_right, if_pos (by omega)]


-- dyadicQ and kOf ------------------------------------------------------

lemma dyadicQ_eq (M : Nat) (t : Int) : dyadicQ M t = (M : ℚ) * (2:ℚ) ^ t := by
  unfold dyadicQ
  split_ifs with h
  · push_cast
    rw [show ((2:ℚ) ^ t.toNat : ℚ) = (2:ℚ) ^ t from by
      rw [← zpow_natCast, Int.toNat_of_nonneg h]]
  · have ht : (0:ℤ) ≤ -t := by omega
    rw [Rat.mkRat_eq_div]
    push_cast
    rw [show ((2:ℚ) ^ (-t).toNat : ℚ) = (2:ℚ) ^ (-t) from by
      rw [← zpow_natCast, Int.toNat_of_nonneg ht]]
    rw [div_eq_mul_inv, ← zpow_neg, neg_neg]

lemma kOf_le (n b : Nat) : kOf n b ≤ (natLog2 n : Int) - (natLog2 b : Int) := by
  unfold kOf
  dsimp only
  split_ifs <;> omega

lemma pow2_le_div_iff (n b : Nat) (hb : 1 ≤ b) (k : Int) :
    (if 0 ≤ k then b * 2 ^ k.toNat ≤ n else b ≤ n * 2 ^ (-k).toNat) ↔
      (2:ℚ) ^ k ≤ (n:ℚ) / (b:ℚ) := by
  have hb0 : (0:ℚ) < (b:ℚ) := by exact_mod_cast (by omega : 0 < b)
  split_ifs with h
  · rw [le_div_iff₀ hb0,
      show (2:ℚ) ^ k * (b:ℚ) = ((b * 2 ^ k.toNat : Nat) : ℚ) from by
        push_cast
        rw [← zpow_natCast (2:ℚ) k.toNat, Int.toNat_of_nonneg h]
        ring]
    rw [Nat.cast_le]
  · have ht : (0:ℤ) ≤ -k := by omega
    have hpow : (0:ℚ) < ((2 ^ (-k).toNat : Nat) : ℚ) := by positivity
    rw [show (2:ℚ) ^ k = 1 / ((2 ^ (-k).toNat : Nat) : ℚ) from by
      push_cast
      rw [show ((2:ℚ) ^ (-k).toNat : ℚ) = (2:ℚ) ^ (-k) from by
        rw [← zpow_natCast, Int.toNat_of_nonneg ht]]
      rw [one_div, ← zpow_neg, neg_neg]]
    rw [div_le_div_iff hpow hb0, one_mul]
    rw [show (n:ℚ) * ((2 ^ (-k).toNat : Nat) : ℚ) = ((n * 2 ^ (-k).toNat : Nat) : ℚ) from by
      push_cast
      ring]
    rw [Nat.cast_le]

lemma kOf_lower (n b : Nat) (hn : 1 ≤ n) (hb : 1 ≤ b) :
    (2:ℚ) ^ (kOf n b - 1) < (n:ℚ) / (b:ℚ) := by
  have hb0 : (0:ℚ) < (b:ℚ) := by exact_mod_cast (by omega : 0 < b)
  have hn0 : (0:ℚ) < (n:ℚ) := by exact_mod_cast (by omega : 0 < n)
  unfold kOf
  dsimp only
  set k0 : Int := (natLog2 n : Int) - (natLog2 b : Int) with hk0
  by_cases h : (if 0 ≤ k0 then b * 2 ^ k0.toNat ≤ n else b ≤ n * 2 ^ (-k0).toNat)
  · rw [if_pos h]
    have h2 := (pow2_le_div_iff n b hb k0).mp h
    have h3 : (2:ℚ) ^ (k0 - 1) < (2:ℚ) ^ k0 :=
      zpow_lt_zpow_right₀ (by norm_num) (by omega)
    linarith
  · rw [if_neg h]
    have hna := natLog2_le hn
    have hbb := natLog2_lt hb
    have h1 : (2:ℚ) ^ ((natLog2 n : Int)) ≤ (n:ℚ) := by
      rw [zpow_natCast]
      exact_mod_cast hna
    have h2 : (b:ℚ) < (2:ℚ) ^ ((natLog2 b : Int) + 1) := by
      rw [show ((natLog2 b : Int) + 1) = ((natLog2 b + 1 : Nat) : Int) from by push_cast; ring,
        zpow_natCast]
      exact_mod_cast hbb
    have hp2 : (0:ℚ) < (2:ℚ) ^ ((natLog2 b : Int) + 1) := by positivity
    have h5 : (2:ℚ) ^ (k0 - 1) < (n:ℚ) / (b:ℚ) := by
      rw [show k0 - 1 = (natLog2 n : Int) - ((natLog2 b : Int) + 1) from by omega,
        zpow_sub₀ (by norm_num : (2:ℚ) ≠ 0)]
      rw [div_lt_div_iff hp2 hb0]
      calc (2:ℚ) ^ ((natLog2 n : Int)) * (b:ℚ)
          ≤ (n:ℚ) * (b:ℚ) := by nlinarith
        _ < (n:ℚ) * (2:ℚ) ^ ((natLog2 b : Int) + 1) := by nlinarith
    have h6 : (2:ℚ) ^ (k0 - 1 - 1) < (2:ℚ) ^ (k0 - 1) :=
      zpow_lt_zpow_right₀ (by norm_num) (by omega)
    linarith

-- roundF64 -------------------------------------------------------------

lemma roundF64_eq_form (q : ℚ) (hq : q ≠ 0) :
    roundF64 q = (if q.num < 0 then -(1:ℚ) else 1) *
      (roundHalfEven (q.num.natAbs * 2 ^ (52 - kOf q.num.natAbs q.den).toNat)
        (q.den * 2 ^ (kOf q.num.natAbs q.den - 52).toNat) : ℚ) *
      (2:ℚ) ^ (kOf q.num.natAbs q.den - 52) := by
  unfold roundF64
  rw [if_neg hq]
  dsimp only
  rw [dyadicQ_eq]
  split_ifs with h <;> ring

lemma abs_q_eq (q : ℚ) : |q| = (q.num.natAbs : ℚ) / (q.den : ℚ) := by
  conv_lhs => rw [← Rat.num_div_den q]
  rw [abs_div, abs_of_pos (by exact_mod_cast q.pos : (0:ℚ) < (q.den : ℚ)),
    Int.cast_natAbs, Int.cast_abs]

lemma scale_div_eq (n b : Nat) (hb : 1 ≤ b) (k : Int) :
    ((n * 2 ^ (52 - k).toNat : Nat) : ℚ) / ((b * 2 ^ (k - 52).toNat : Nat) : ℚ)
      = ((n:ℚ) / (b:ℚ)) * (2:ℚ) ^ (52 - k) := by
  have hb0 : ((b:ℚ)) ≠ 0 := by
    have : (0:ℚ) < (b:ℚ) := by exact_mod_cast (by omega : 0 < b)
    linarith
  rcases le_or_lt k 52 with h | h
  · have h1 : (k - 52).toNat = 0 := by omega
    rw [h1]
    push_cast
    rw [show (2:ℚ) ^ (52 - k) = (2:ℚ) ^ ((52 - k).toNat) from by
      rw [← zpow_natCast]
      congr 1
      omega]
    norm_num
    ring
  · have h1 : (52 - k).toNat = 0 := by omega
    rw [h1]
    push_cast
    rw [show (2:ℚ) ^ (52 - k) = ((2:ℚ) ^ ((k - 52).toNat))⁻¹ from by
      rw [← zpow_natCast, ← zpow_neg]
      congr 1
      omega]
    norm_num
    rw [div_mul_eq_div_div, div_eq_mul_inv, div_eq_mul_inv]

lemma roundF64_zero : roundF64 0 = 0 := by
  unfold roundF64
  rw [if_pos rfl]



lemma roundF64_exact {q : ℚ} {j : Nat} (hden : q.den = 2 ^ j) (hnum : q.num.natAbs < 2 ^ 53) :
    roundF64 q = q := by
  by_cases hq : q = 0
  · rw [hq, roundF64_zero]
  have hn1 : 1 ≤ q.num.natAbs := Int.natAbs_pos.mpr (Rat.num_ne_zero.mpr hq)
  have hln : natLog2 q.num.natAbs < 53 := natLog2_lt_of_lt hn1 hnum
  have hlb : natLog2 q.den = j := by
    rw [hden]
    exact natLog2_two_pow j
  rw [roundF64_eq_form q hq]
  set K := kOf q.num.natAbs q.den with hK
  have hkle : K ≤ 52 - (j : Int) := by
    have h := kOf_le q.num.natAbs q.den
    rw [hlb] at h
    omega
  have he0 : (K - 52).toNat = 0 := by omega
  have hejn : j ≤ (52 - K).toNat := by omega
  have hdvd : q.den * 2 ^ (K - 52).toNat ∣ q.num.natAbs * 2 ^ (52 - K).toNat := by
    rw [he0, pow_zero, mul_one, hden]
    exact Dvd.dvd.mul_left (pow_dvd_pow 2 hejn) q.num.natAbs
  have hdpos : 0 < q.den * 2 ^ (K - 52).toNat := by
    have := q.pos
    positivity
  have hM := roundHalfEven_exact
    (q.num.natAbs * 2 ^ (52 - K).toNat) (q.den * 2 ^ (K - 52).toNat) hdpos hdvd
  rw [hM, he0, pow_zero, mul_one, hden]
  have hdivq : q.num.natAbs * 2 ^ (52 - K).toNat / 2 ^ j
      = q.num.natAbs * 2 ^ ((52 - K).toNat - j) := by
    have hp : 0 < (2:ℕ) ^ j := pow_pos (by norm_num) j
    rw [show (52 - K).toNat = ((52 - K).toNat - j) + j from by omega, pow_add, ← mul_assoc,
      Nat.mul_div_cancel _ hp]
    rw [show (52 - K).toNat - j + j - j = (52 - K).toNat - j from by omega]
  rw [hdivq]
  have hqnum : ((q.num : ℚ)) = (if q.num < 0 then -(1:ℚ) else 1) * (q.num.natAbs : ℚ) := by
    split_ifs with hs
    · rw [Int.cast_natAbs, Int.cast_abs,
        abs_of_neg (show ((q.num:ℚ)) < 0 from by exact_mod_cast hs)]
      ring
    · rw [Int.cast_natAbs, Int.cast_abs,
        abs_of_nonneg (show (0:ℚ) ≤ (q.num:ℚ) from by exact_mod_cast (by omega : (0:ℤ) ≤ q.num))]
      ring
  have hqval : q = ((q.num:ℚ)) / ((2:ℚ) ^ (j : Int)) := by
    conv_lhs => rw [← Rat.num_div_den q]
    rw [hden, zpow_natCast]
    push_cast
    rfl
  conv_rhs => rw [hqval]
  rw [hqnum]
  push_cast
  rw [show ((2:ℚ) ^ ((52 - K).toNat - j) : ℚ) = (2:ℚ) ^ (52 - K - (j:Int)) from by
    rw [← zpow_natCast]
    congr 1
    omega]
  have hexp : (2:ℚ) ^ (52 - K - (j:Int)) * (2:ℚ) ^ (K - 52) = ((2:ℚ) ^ (j:Int))⁻¹ := by
    rw [← zpow_add₀ (by norm_num : (2:ℚ) ≠ 0), ← zpow_neg]
    congr 1
    omega
  rw [div_eq_mul_inv, ← hexp]
  ring

lemma roundF64_err (q : ℚ) (hq : q ≠ 0) :
    |roundF64 q - q| < |q| * (2:ℚ) ^ (-(52:Int)) := by
  have hn1 : 1 ≤ q.num.natAbs := Int.natAbs_pos.mpr (Rat.num_ne_zero.mpr hq)
  have hb1 : 1 ≤ q.den := q.pos
  have hform := roundF64_eq_form q hq
  have hscale := scale_div_eq q.num.natAbs q.den hb1 (kOf q.num.natAbs q.den)
  have habs := abs_q_eq q
  set K := kOf q.num.natAbs q.den with hK
  set N : Nat := q.num.natAbs * 2 ^ (52 - K).toNat with hN
  set D : Nat := q.den * 2 ^ (K - 52).toNat with hD
  have hdpos : 0 < D := by
    rw [hD]
    have := q.pos
    positivity
  have hnear := roundHalfEven_near N D hdpos
  set M : Nat := roundHalfEven N D with hM
  have hden0 : (0:ℚ) < (D : ℚ) := by exact_mod_cast hdpos
  have hnearQ : |(M : ℚ) - (N : ℚ) / (D : ℚ)| ≤ 1/2 := by
    have h1q : (2:ℚ) * (M : ℚ) * (D : ℚ) ≤ 2 * (N : ℚ) + (D : ℚ) := by
      exact_mod_cast hnear.1
    have h2q : (2:ℚ) * (N : ℚ) ≤ 2 * (M : ℚ) * (D : ℚ) + (D : ℚ) := by
      exact_mod_cast hnear.2
    rw [abs_le]
    constructor
    · have hle : (N : ℚ) / (D : ℚ) ≤ (M : ℚ) + 1/2 := by
        rw [div_le_iff₀ hden0]
        nlinarith [h2q]
      linarith
    · have hle : (M : ℚ) - 1/2 ≤ (N : ℚ) / (D : ℚ) := by
        rw [le_div_iff₀ hden0]
        nlinarith [h1q]
      linarith
  have hqeq : q = (if q.num < 0 then -(1:ℚ) else 1) * ((q.num.natAbs : ℚ) / (q.den : ℚ)) := by
    split_ifs with hs
    · rw [neg_one_mul, ← habs, abs_of_neg (Rat.num_neg.mp hs)]
      ring
    · rw [one_mul, ← habs, abs_of_nonneg (Rat.num_nonneg.mp (by omega))]
  have hcancel : (2:ℚ) ^ (52 - K) * (2:ℚ) ^ (K - 52) = 1 := by
    rw [← zpow_add₀ (by norm_num : (2:ℚ) ≠ 0),
      show 52 - K + (K - 52) = (0:ℤ) from by omega, zpow_zero]
  have hdiff : roundF64 q - q
      = (if q.num < 0 then -(1:ℚ) else 1) * ((M : ℚ) - (N : ℚ) / (D : ℚ)) *
        (2:ℚ) ^ (K - 52) := by
    linear_combination hform - hqeq +
      ((if q.num < 0 then -(1:ℚ) else 1) * (2:ℚ) ^ (K - 52)) * hscale +
      ((if q.num < 0 then -(1:ℚ) else 1) * ((q.num.natAbs : ℚ) / (q.den : ℚ))) * hcancel
  rw [hdiff, abs_mul, abs_mul,
    abs_of_pos (show (0:ℚ) < (2:ℚ) ^ (K - 52) from by positivity),
    show |(if q.num < 0 then -(1:ℚ) else 1)| = 1 from by split_ifs <;> norm_num, one_mul]
  have hk_low := kOf_lower q.num.natAbs q.den hn1 hb1
  rw [habs]
  calc |(M : ℚ) - (N : ℚ) / (D : ℚ)| * (2:ℚ) ^ (K - 52)
      ≤ (1/2) * (2:ℚ) ^ (K - 52) :=
        mul_le_mul_of_nonneg_right hnearQ (by positivity)
    _ = (2:ℚ) ^ (K - 1) * (2:ℚ) ^ (-(52:Int)) := by
        rw [show (1:ℚ)/2 = (2:ℚ) ^ (-(1:Int)) from by norm_num]
        rw [← zpow_add₀ (by norm_num : (2:ℚ) ≠ 0), ← zpow_add₀ (by norm_num : (2:ℚ) ≠ 0)]
        congr 1
        omega
    _ < ((q.num.natAbs : ℚ) / (q.den : ℚ)) * (2:ℚ) ^ (-(52:Int)) :=
        mul_lt_mul_of_pos_right hk_low (by positivity)

-- Exactness and accuracy of the codec arithmetic --------------------

lemma roundF64_intCast (n : Int) (h : n.natAbs < 2 ^ 53) :
    roundF64 ((n : ℚ)) = (n : ℚ) := by
  have hden : ((n : ℚ)).den = 2 ^ 0 := by
    rw [Rat.den_intCast, pow_zero]
  have hnum : ((n : ℚ)).num.natAbs < 2 ^ 53 := by
    rw [Rat.num_intCast]
    exact h
  exact roundF64_exact hden hnum

lemma qdiv1000_eq (q : ℚ) : qdiv1000 q = q / 1000 := by
  unfold qdiv1000
  rw [Rat.mkRat_eq_div]
  push_cast
  rw [show ((q.num : ℚ)) / ((q.den : ℚ) * 1000) = ((q.num : ℚ) / (q.den : ℚ)) / 1000 from by
    ring]
  rw [Rat.num_div_den]

lemma qmul1000_eq (q : ℚ) : qmul1000 q = q * 1000 := by
  unfold qmul1000
  rw [Rat.mkRat_eq_div]
  push_cast
  rw [show ((q.num : ℚ) * 1000) / ((q.den : ℚ)) = ((q.num : ℚ) / (q.den : ℚ)) * 1000 from by
    ring]
  rw [Rat.num_div_den]

lemma f64_as_i64_intCast (n : Int) (h : n.natAbs < 2 ^ 63) :
    f64_as_i64 ((n : ℚ)) = n := by
  simp only [f64_as_i64, ratTrunc_intCast]
  rw [if_neg (by omega), if_neg (by omega)]

lemma roundF64_div1000 (d : Int) (h125 : d % 125 = 0) (h53 : d.natAbs < 2 ^ 53) :
    roundF64 ((d : ℚ) / 1000) = (d : ℚ) / 1000 := by
  obtain ⟨m, rfl⟩ : (125 : Int) ∣ d := Int.dvd_of_emod_eq_zero h125
  have hm53 : m.natAbs < 2 ^ 53 := by
    rw [Int.natAbs_mul] at h53
    norm_num at h53
    omega
  have hq : ((125 * m : Int) : ℚ) / 1000 = ((m : Int) : ℚ) / 8 := by
    push_cast
    ring
  rw [hq]
  have hdvdZ : ((((m : ℚ) / 8).den : Int)) ∣ 8 := by
    have h := Rat.den_dvd m 8
    rw [Rat.divInt_eq_div] at h
    push_cast at h
    exact h
  have hdvdN : ((m : ℚ) / 8).den ∣ 8 := by exact_mod_cast hdvdZ
  obtain ⟨j, hj3, hj⟩ :=
    (Nat.dvd_prime_pow Nat.prime_two).mp ((by norm_num : (8 : ℕ) = 2 ^ 3) ▸ hdvdN)
  have hden0 : ((((m : ℚ) / 8).den : ℚ)) ≠ 0 := by
    exact_mod_cast ((m : ℚ) / 8).den_nz
  have hnumq : ((((m : ℚ) / 8).num : ℚ)) = ((m : ℚ) / 8) * ((((m : ℚ) / 8).den : ℚ)) := by
    have h := Rat.num_div_den ((m : ℚ) / 8)
    field_simp at h
    linarith [h]
  have hcross : ((((m : ℚ) / 8).num : ℚ)) * 8 = (m : ℚ) * ((((m : ℚ) / 8).den : ℚ)) := by
    rw [hnumq]
    ring
  have hcrossZ : (((m : ℚ) / 8).num) * 8 = m * ((((m : ℚ) / 8).den : Int)) := by
    exact_mod_cast hcross
  have hdenle : ((m : ℚ) / 8).den ≤ 8 := Nat.le_of_dvd (by norm_num) hdvdN
  have habs : (((m : ℚ) / 8).num).natAbs * 8 = m.natAbs * ((m : ℚ) / 8).den := by
    have h := congrArg Int.natAbs hcrossZ
    rw [Int.natAbs_mul, Int.natAbs_mul] at h
    simpa using h
  have hnumle : (((m : ℚ) / 8).num).natAbs ≤ m.natAbs := by
    have h8 : m.natAbs * ((m : ℚ) / 8).den ≤ m.natAbs * 8 :=
      Nat.mul_le_mul_left _ hdenle
    have hcomb : (((m : ℚ) / 8).num).natAbs * 8 ≤ m.natAbs * 8 := by
      rw [habs]
      exact h8
    omega
  exact roundF64_exact hj (lt_of_le_of_lt hnumle hm53)

lemma duration_to_float_toRat (d : Duration) (h125 : d % 125 = 0)
    (h53 : d.natAbs < 2 ^ 53) :
    (duration_to_float d).toRat = (d : ℚ) / 1000 := by
  simp only [duration_to_float]
  rw [roundF64_intCast d h53, qdiv1000_eq, roundF64_div1000 d h125 h53]
  by_cases h : ((d : ℚ) / 1000).den = 1
  · rw [if_pos h]
    have h2 := (Rat.den_eq_one_iff ((d : ℚ) / 1000)).mp h
    have h3 : ((((d : ℚ) / 1000).num : Int) : ℚ) * 1000 = (d : ℚ) := by
      rw [h2]
      field_simp
    have h4 : ((d : ℚ) / 1000).num * 1000 = d := by exact_mod_cast h3
    have h5 : ((d : ℚ) / 1000).num.natAbs < 2 ^ 63 := by
      have h6 := congrArg Int.natAbs h4
      rw [Int.natAbs_mul] at h6
      norm_num at h6
      omega
    show ((f64_as_i64 ((d : ℚ) / 1000) : Int) : ℚ) = (d : ℚ) / 1000
    rw [← h2, f64_as_i64_intCast _ h5]
  · rw [if_neg h]
    rfl

lemma time_roundtrip (d : Duration) (h : f64ExactMs d = true) :
    float_to_duration (roundF64 (duration_to_float d).toRat) = d := by
  simp only [f64ExactMs, Bool.and_eq_true, beq_iff_eq, decide_eq_true_eq] at h
  obtain ⟨h125, h53⟩ := h
  rw [duration_to_float_toRat d h125 h53, roundF64_div1000 d h125 h53]
  unfold float_to_duration
  rw [qmul1000_eq, div_mul_cancel₀ _ (by norm_num : (1000 : ℚ) ≠ 0),
    roundF64_intCast d h53, f64_as_i64_intCast d (by omega)]

lemma decodeRecord_encodeRecord (p : PodcastNamespaceChapter)
    (hs : f64ExactMs p.start_time = true)
    (he : ∀ e ∈ p.end_time, f64ExactMs e = true) :
    decodeRecord (encodeRecord p) = .ok p := by
  obtain ⟨st, et, ti, im, ur, tc⟩ := p
  have hst := time_roundtrip st hs
  cases et with
  | none =>
    cases ti <;> cases im <;> cases ur <;> cases tc <;>
      simp [decodeRecord, encodeRecord, decodeJsonNumber, decodeTitle, decodeUrlField,
        decodeToc, float_to_duration_option, Url.parse, Url.toString, hst]
  | some e =>
    have hee := time_roundtrip e (he e rfl)
    cases ti <;> cases im <;> cases ur <;> cases tc <;>
      simp [decodeRecord, encodeRecord, decodeJsonNumber, decodeTitle, decodeUrlField,
        decodeToc, float_to_duration_option, Url.parse, Url.toString, hst, hee]

lemma decodeRecords_encode (ps : List PodcastNamespaceChapter)
    (h : ∀ p ∈ ps, f64ExactMs p.start_time = true ∧ ∀ e ∈ p.end_time, f64ExactMs e = true) :
    decodeRecords (ps.map encodeRecord) = .ok ps := by
  induction ps with
  | nil => rfl
  | cons p rest ih =>
    have hp := h p (List.mem_cons_self p rest)
    have hrest := ih (fun q hq => h q (List.mem_cons_of_mem p hq))
    simp [decodeRecords, decodeRecord_encodeRecord p hp.1 hp.2, hrest]

lemma chapterOfPNC_pncOfChapter (c : Chapter) (h : c.jsonRepresentable = true) :
    chapterOfPNC (pncOfChapter c) = c := by
  rcases c with ⟨st, en, ti, im, li, hi, re⟩
  rcases im with _ | ⟨u⟩ <;> rcases li with _ | ⟨lu, lt⟩ <;>
    simp [Chapter.jsonRepresentable] at h <;>
    cases hi <;>
    simp_all [chapterOfPNC, pncOfChapter]

/-- C1 (amended): for every chapter list whose fields are all representable
in the structured-document schema (no link title, no remote entity) and
whose start and end times have binary64-exact second values (milliseconds
divisible by 125 and below 2^53 in magnitude), reading back the written
document returns the same list: `from_json (to_json chapters) = ok
chapters`. Without the exactness condition the float channel can shift a
time by up to one part in 2^52 (see the counterexample). -/
theorem from_json_to_json_roundtrip (chapters : List Chapter)
    (h : ∀ c ∈ chapters, c.jsonRepresentable = true ∧ f64ExactMs c.start = true ∧
      ∀ e ∈ c.«end», f64ExactMs e = true) :
    from_json (to_json chapters) = Except.ok chapters := by
  unfold from_json to_json
  have h1 : decodeRecords (chapters.map (fun c => encodeRecord (pncOfChapter c)))
      = .ok (chapters.map pncOfChapter) := by
    have h2 := decodeRecords_encode (chapters.map pncOfChapter) (by
      intro p hp
      obtain ⟨c, hc, rfl⟩ := List.mem_map.mp hp
      exact ⟨(h c hc).2.1, (h c hc).2.2⟩)
    rw [List.map_map] at h2
    exact h2
  rw [h1]
  show Except.ok ((chapters.map pncOfChapter).map chapterOfPNC) = Except.ok chapters
  rw [List.map_map]
  congr 1
  have hcongr : ∀ c ∈ chapters, (chapterOfPNC ∘ pncOfChapter) c = id c :=
    fun c hc => chapterOfPNC_pncOfChapter c (h c hc).1
  rw [List.map_congr_left hcongr, List.map_id]

/-- Counterexample to C1 as stated: a representable chapter starting at
1001 ms (1.001 s, not a binary64-exact value) reads back as 1000 ms — the
f64 multiplication `1.001 * 1000.0` rounds to 1000.9999999999999 and the
`as i64` cast truncates it. -/
theorem from_json_to_json_roundtrip_counterexample :
    (∀ c ∈ [(⟨1001, none, none, none, none, false, none⟩ : Chapter)],
        c.jsonRepresentable = true)
    ∧ from_json (to_json [(⟨1001, none, none, none, none, false, none⟩ : Chapter)])
      = Except.ok [(⟨1000, none, none, none, none, false, none⟩ : Chapter)] := by
  decide

/-- Closed instance of the amended C1: a two-chapter list (one hidden, one
with image, link and fractional end time, all times binary64 exact)
survives the JSON round trip. -/
theorem from_json_to_json_roundtrip_witness :
    (∀ c ∈ [(⟨45000, some 130500, some "Chapter 1",
              some (Image.url ⟨"https://example.com/a.jpg"⟩),
              some ⟨⟨"https://example.com/"⟩, none⟩, true, none⟩ : Chapter),
            (⟨0, none, none, none, none, false, none⟩ : Chapter)],
        c.jsonRepresentable = true ∧ f64ExactMs c.start = true ∧
          ∀ e ∈ c.«end», f64ExactMs e = true)
    ∧ from_json (to_json
        [(⟨45000, some 130500, some "Chapter 1",
           some (Image.url ⟨"https://example.com/a.jpg"⟩),
           some ⟨⟨"https://example.com/"⟩, none⟩, true, none⟩ : Chapter),
         (⟨0, none, none, none, none, false, none⟩ : Chapter)])
      = Except.ok
        [(⟨45000, some 130500, some "Chapter 1",
           some (Image.url ⟨"https://example.com/a.jpg"⟩),
           some ⟨⟨"https://example.com/"⟩, none⟩, true, none⟩ : Chapter),
         (⟨0, none, none, none, none, false, none⟩ : Chapter)] :=
  ⟨by decide, from_json_to_json_roundtrip _ (by decide)⟩

/-- C3: on read, a record's hidden flag is the negation of `toc` defaulted
to `true` (absent or explicit `true` gives visible, explicit `false` gives
hidden); on write, a hidden chapter emits `toc: false` and a visible
chapter omits the `toc` key entirely. -/
theorem toc_hidden_polarity :
    (∀ p : PodcastNamespaceChapter, p.toc = none → (chapterOfPNC p).hidden = false)
    ∧ (∀ p : PodcastNamespaceChapter, p.toc = some true → (chapterOfPNC p).hidden = false)
    ∧ (∀ p : PodcastNamespaceChapter, p.toc = some false → (chapterOfPNC p).hidden = true)
    ∧ (∀ c : Chapter, c.hidden = true →
        (encodeRecord (pncOfChapter c)).toc = some (JVal.bool false))
    ∧ (∀ c : Chapter, c.hidden = false → (encodeRecord (pncOfChapter c)).toc = none) := by
  refine ⟨fun p h => ?_, fun p h => ?_, fun p h => ?_, fun c h => ?_, fun c h => ?_⟩ <;>
    simp [chapterOfPNC, pncOfChapter, encodeRecord, h]

/-- Closed instance of C3 at concrete records and chapters. -/
theorem toc_hidden_polarity_witness :
    (chapterOfPNC ⟨55000, none, some "X", none, none, none⟩).hidden = false
    ∧ (chapterOfPNC ⟨55000, none, some "X", none, none, some true⟩).hidden = false
    ∧ (chapterOfPNC ⟨55000, none, some "X", none, none, some false⟩).hidden = true
    ∧ (encodeRecord (pncOfChapter ⟨0, none, some "H", none, none, true, none⟩)).toc
      = some (JVal.bool false)
    ∧ (encodeRecord (pncOfChapter ⟨0, none, some "V", none, none, false, none⟩)).toc
      = none :=
  ⟨toc_hidden_polarity.1 _ rfl, toc_hidden_polarity.2.1 _ rfl,
    toc_hidden_polarity.2.2.1 _ rfl, toc_hidden_polarity.2.2.2.1 _ rfl,
    toc_hidden_polarity.2.2.2.2 _ rfl⟩

/-- C5 (amended): a start (or end) time whose seconds value has no
fractional part is encoded as a bare integer (45 whole seconds gives the
integer literal 45), and a fractional value is encoded as a decimal (130.5
seconds gives 130.5); for every duration below 2^52 ms in magnitude the
emitted number is an integer exactly when the millisecond count is
divisible by 1000 (beyond that the f64 seconds value can round to an
integer, see the counterexample), and `to_json` emits chapter times
through this encoding. -/
theorem duration_encoding_integer_or_float :
    duration_to_float 45000 = JNum.int 45
    ∧ duration_to_float 130500 = JNum.dec (mkRat 261 2)
    ∧ (∀ d : Duration, d.natAbs < 2 ^ 52 →
        duration_to_float d =
          if d % 1000 = 0 then JNum.int (d / 1000)
          else JNum.dec (roundF64 ((d : ℚ) / 1000)))
    ∧ (∀ c : Chapter, (encodeRecord (pncOfChapter c)).startTime =
        some (JVal.num (duration_to_float c.start)))
    ∧ (∀ c : Chapter, (encodeRecord (pncOfChapter c)).endTime =
        c.«end».map (fun e => JVal.num (duration_to_float e))) := by
  refine ⟨by decide, by decide, ?_, fun c => rfl, fun c => rfl⟩
  intro d hd
  have h53 : d.natAbs < 2 ^ 53 := by omega
  simp only [duration_to_float]
  rw [roundF64_intCast d h53, qdiv1000_eq]
  by_cases h1000 : d % 1000 = 0
  · obtain ⟨k, rfl⟩ : (1000 : Int) ∣ d := Int.dvd_of_emod_eq_zero h1000
    have hq : ((1000 * k : Int) : ℚ) / 1000 = ((k : Int) : ℚ) := by
      push_cast
      exact mul_div_cancel_left₀ _ (by norm_num)
    have hk53 : k.natAbs < 2 ^ 53 := by
      rw [Int.natAbs_mul] at h53
      norm_num at h53
      omega
    rw [hq, roundF64_intCast k hk53, Rat.den_intCast, if_pos rfl, if_pos h1000,
      f64_as_i64_intCast k (by omega), Int.mul_ediv_cancel_left _ (by norm_num)]
  · rw [if_neg h1000]
    have hdne : d ≠ 0 := by
      intro h0
      rw [h0] at h1000
      exact h1000 rfl
    have hne : ((d : ℚ) / 1000) ≠ 0 :=
      div_ne_zero (Int.cast_ne_zero.mpr hdne) (by norm_num)
    have hden : (roundF64 ((d : ℚ) / 1000)).den ≠ 1 := by
      intro hden1
      have hzq := (Rat.den_eq_one_iff (roundF64 ((d : ℚ) / 1000))).mp hden1
      have herr := roundF64_err ((d : ℚ) / 1000) hne
      have habs : |(d : ℚ) / 1000| = (d.natAbs : ℚ) / 1000 := by
        rw [abs_div, abs_of_pos (show (0:ℚ) < 1000 from by norm_num), Int.cast_natAbs,
          Int.cast_abs]
      rw [habs] at herr
      have hub : ((d.natAbs : ℚ)) / 1000 * (2:ℚ) ^ (-(52:Int)) < 1 / 1000 := by
        have hd52 : ((d.natAbs : ℚ)) < (2:ℚ) ^ (52:Nat) := by exact_mod_cast hd
        have hP : (0:ℚ) < (2:ℚ) ^ (52:Nat) := by positivity
        have hp2 : (2:ℚ) ^ (-(52:Int)) = ((2:ℚ) ^ (52:Nat))⁻¹ := by
          rw [← zpow_natCast, ← zpow_neg]
          norm_num
        rw [hp2]
        have h1 : ((d.natAbs : ℚ)) * ((2:ℚ) ^ (52:Nat))⁻¹ < 1 := by
          rw [← div_eq_mul_inv, div_lt_one hP]
          exact hd52
        calc ((d.natAbs : ℚ)) / 1000 * ((2:ℚ) ^ (52:Nat))⁻¹
            = ((d.natAbs : ℚ)) * ((2:ℚ) ^ (52:Nat))⁻¹ / 1000 := by ring
          _ < 1 / 1000 := by linarith
      have hz1000 : (roundF64 ((d : ℚ) / 1000)).num * 1000 ≠ d := by
        intro hcontra
        apply h1000
        rw [← hcontra]
        exact Int.mul_emod_left _ _
      have hlow : (1:ℚ) / 1000 ≤ |roundF64 ((d : ℚ) / 1000) - (d : ℚ) / 1000| := by
        rw [← hzq]
        have heq : (((roundF64 ((d : ℚ) / 1000)).num : ℚ)) - (d : ℚ) / 1000
            = (((roundF64 ((d : ℚ) / 1000)).num * 1000 - d : Int) : ℚ) / 1000 := by
          push_cast
          ring
        rw [heq, abs_div, abs_of_pos (show (0:ℚ) < 1000 from by norm_num)]
        have hne0 : (roundF64 ((d : ℚ) / 1000)).num * 1000 - d ≠ 0 :=
          sub_ne_zero.mpr hz1000
        have hge1 : (1:ℚ) ≤ |(((roundF64 ((d : ℚ) / 1000)).num * 1000 - d : Int) : ℚ)| := by
          rw [← Int.cast_abs]
          have h2 : (1:ℤ) ≤ |(roundF64 ((d : ℚ) / 1000)).num * 1000 - d| := by
            rcases abs_pos.mpr hne0 with h3
            omega
          exact_mod_cast h2
        linarith [hge1]
      linarith [herr, hub, hlow]
    rw [if_neg hden]

/-- Counterexample to C5 as stated: 8778543658378376248 ms is not a whole
number of seconds, yet the value is emitted as a bare integer literal — at
this magnitude the binary64 seconds value has already rounded away the
fractional part. -/
theorem duration_encoding_counterexample :
    ((8778543658378376248 : Int) % 1000 ≠ 0)
    ∧ duration_to_float 8778543658378376248 = JNum.int 8778543658378376 := by
  decide

/-- Closed instance of the amended C5: 1001 ms is below 2^52 ms and encodes
per the integer/decimal rule (as a decimal, since 1001 is not divisible by
1000). -/
theorem duration_encoding_integer_or_float_witness :
    ((1001 : Int).natAbs < 2 ^ 52)
    ∧ duration_to_float 1001 =
        (if (1001 : Int) % 1000 = 0 then JNum.int (1001 / 1000)
         else JNum.dec (roundF64 ((1001 : ℚ) / 1000))) :=
  ⟨by decide, duration_encoding_integer_or_float.2.2.1 1001 (by decide)⟩

lemma string_foldl_append (l : List String) :
    ∀ a : String, l.foldl (fun r s => r ++ s) a = a ++ l.foldl (fun r s => r ++ s) "" := by
  induction l with
  | nil => intro a; simp [String.append_empty]
  | cons x xs ih =>
    intro a
    simp only [List.foldl_cons]
    rw [ih (a ++ x), ih ("" ++ x), String.empty_append, String.append_assoc]

lemma string_join_cons (a : String) (l : List String) :
    String.join (a :: l) = a ++ String.join l := by
  show (a :: l).foldl (fun r s => r ++ s) "" = a ++ l.foldl (fun r s => r ++ s) ""
  rw [List.foldl_cons, String.empty_append, string_foldl_append]

lemma to_description_eq (chapters : List Chapter) :
    to_description chapters =
      descLoop (if chapters.any (fun c => decide (3600000 ≤ c.start))
        then TimestampType.HhMmSs else TimestampType.MmSs) "" chapters := rfl

lemma descLoop_join (tt : TimestampType) :
    ∀ (chapters : List Chapter), (∀ c ∈ chapters, c.title ≠ none) → ∀ acc : String,
      descLoop tt acc chapters = .ok (acc ++ String.join (chapters.map (descLine tt)))
  | [], _, acc => by simp [descLoop, String.join, String.append_empty]
  | c :: rest, h, acc => by
    obtain ⟨t, ht⟩ := Option.ne_none_iff_exists'.mp (h c (List.mem_cons_self c rest))
    simp only [descLoop, ht]
    rw [descLoop_join tt rest (fun x hx => h x (List.mem_cons_of_mem c hx)) _]
    rw [List.map_cons, string_join_cons]
    congr 1
    simp [descLine, ht, String.append_assoc]

lemma descLoop_missing (tt : TimestampType) :
    ∀ (chapters : List Chapter) (acc : String), (∃ c ∈ chapters, c.title = none) →
      descLoop tt acc chapters = .error "Chapter title is missing"
  | [], _, h => by simp at h
  | c :: rest, acc, h => by
    cases hc : c.title with
    | none => simp [descLoop, hc]
    | some t =>
      rcases h with ⟨x, hx, hxt⟩
      rcases List.mem_cons.mp hx with rfl | hx'
      · rw [hc] at hxt
        exact Option.noConfusion hxt
      · simp only [descLoop, hc]
        exact descLoop_missing tt rest _ ⟨x, hx', hxt⟩

/-- C2 (amended): for a fully titled chapter list, `to_description` emits
exactly one line per chapter of the form `<timestamp> <title>` (a single
space separates timestamp and title) terminated by a newline, in the
caller-supplied order without re-sorting. -/
theorem to_description_line_format (chapters : List Chapter)
    (h : ∀ c ∈ chapters, c.title ≠ none) :
    ∃ tt : TimestampType,
      to_description chapters = .ok (String.join (chapters.map (descLine tt))) := by
  refine ⟨if chapters.any (fun c => decide (3600000 ≤ c.start))
    then TimestampType.HhMmSs else TimestampType.MmSs, ?_⟩
  rw [to_description_eq, descLoop_join _ chapters h "", String.empty_append]

/-- Counterexample to C2 as stated: the write path separates timestamp
and title with a single space, not with " - ". -/
theorem to_description_separator_counterexample :
    to_description [(⟨0, none, some "Intro", none, none, false, none⟩ : Chapter)]
      = .ok "00:00 Intro\n"
    ∧ "00:00 Intro\n" ≠ "00:00 - Intro\n" :=
  ⟨by decide, by decide⟩

/-- Closed instance of the amended C2 at a concrete chapter list. -/
theorem to_description_line_format_witness :
    ∃ tt : TimestampType,
      to_description [(⟨0, none, some "Intro", none, none, false, none⟩ : Chapter),
          (⟨304000, none, some "Baboons", none, none, false, none⟩ : Chapter)]
        = .ok (String.join
            ([(⟨0, none, some "Intro", none, none, false, none⟩ : Chapter),
              (⟨304000, none, some "Baboons", none, none, false, none⟩ : Chapter)].map
              (descLine tt))) :=
  to_description_line_format _ (by decide)

/-- C8: `to_description` selects one notation for the whole output —
`HH:MM:SS` when some chapter starts at or after 3600 seconds, `MM:SS`
when all start before — and every emitted line uses it. -/
theorem to_description_timestamp_selection (chapters : List Chapter)
    (h : ∀ c ∈ chapters, c.title ≠ none) :
    ((∃ c ∈ chapters, 3600000 ≤ c.start) →
      to_description chapters
        = .ok (String.join (chapters.map (descLine TimestampType.HhMmSs))))
    ∧ ((∀ c ∈ chapters, c.start < 3600000) →
      to_description chapters
        = .ok (String.join (chapters.map (descLine TimestampType.MmSs)))) := by
  constructor
  · rintro ⟨c, hc, hge⟩
    have hany : chapters.any (fun c => decide (3600000 ≤ c.start)) = true :=
      List.any_eq_true.mpr ⟨c, hc, decide_eq_true hge⟩
    rw [to_description_eq, hany, if_pos rfl, descLoop_join _ chapters h "",
      String.empty_append]
  · intro hlt
    have hany : chapters.any (fun c => decide (3600000 ≤ c.start)) = false :=
      List.any_eq_false.mpr (fun x hx => by
        simp only [decide_eq_true_eq, not_le]
        exact hlt x hx)
    rw [to_description_eq, hany, if_neg Bool.false_ne_true,
      descLoop_join _ chapters h "", String.empty_append]

/-- Closed instance of C8: a start at exactly one hour selects `HH:MM:SS`;
starts below one hour select `MM:SS`. -/
theorem to_description_timestamp_selection_witness :
    to_description [(⟨3600000, none, some "A", none, none, false, none⟩ : Chapter)]
      = .ok (String.join
          ([(⟨3600000, none, some "A", none, none, false, none⟩ : Chapter)].map
            (descLine TimestampType.HhMmSs)))
    ∧ to_description [(⟨65000, none, some "B", none, none, false, none⟩ : Chapter)]
      = .ok (String.join
          ([(⟨65000, none, some "B", none, none, false, none⟩ : Chapter)].map
            (descLine TimestampType.MmSs))) :=
  ⟨(to_description_timestamp_selection _ (by decide)).1
      ⟨_, List.mem_singleton_self _, by decide⟩,
    (to_description_timestamp_selection _ (by decide)).2 (by decide)⟩

/-- C9: a chapter list containing an entry without a title makes
`to_description` fail with an error; the `Result` return means no partial
description text is produced. -/
theorem to_description_missing_title (chapters : List Chapter)
    (h : ∃ c ∈ chapters, c.title = none) :
    to_description chapters = .error "Chapter title is missing" := by
  rw [to_description_eq]
  exact descLoop_missing _ chapters "" h

/-- Closed instance of C9: the second chapter has no title, so the whole
write fails. -/
theorem to_description_missing_title_witness :
    to_description [(⟨0, none, some "A", none, none, false, none⟩ : Chapter),
        (⟨5000, none, none, none, none, false, none⟩ : Chapter)]
      = .error "Chapter title is missing" :=
  to_description_missing_title _
    ⟨(⟨5000, none, none, none, none, false, none⟩ : Chapter), by decide, rfl⟩

/-- C4: in `from_description`, lines before notation lock-in that match no
notation are skipped as prose; the first line matching a notation locks it
in and is parsed with it; once locked, the produced chapters are exactly
those of the maximal prefix of lines matching the locked notation's full
line pattern — the first non-matching line terminates the scan, and no
later line contributes a chapter even if it would match some notation. -/
theorem from_description_lock_in :
    (∀ (pre rest : List String), (∀ l ∈ pre, TimestampType.from_line l = none) →
      fromDescriptionLoop (pre ++ rest) none = fromDescriptionLoop rest none)
    ∧ (∀ (line : String) (rest : List String) (tt : TimestampType),
      TimestampType.from_line line = some tt →
      fromDescriptionLoop (line :: rest) none = fromDescriptionLoop (line :: rest) (some tt))
    ∧ (∀ (tt : TimestampType) (ls : List String),
      fromDescriptionLoop ls (some tt)
        = (ls.takeWhile (fun l => (parse_line l tt).isSome)).filterMap
            (fun l => parse_line l tt)) := by
  refine ⟨?_, ?_, ?_⟩
  · intro pre
    induction pre with
    | nil => intro rest _; rfl
    | cons a as ih =>
      intro rest h
      have ha := h a (List.mem_cons_self a as)
      simp only [List.cons_append, fromDescriptionLoop, ha]
      exact ih rest (fun l hl => h l (List.mem_cons_of_mem a hl))
  · intro line rest tt h
    simp only [fromDescriptionLoop, h]
  · intro tt ls
    induction ls with
    | nil => rfl
    | cons l rest ih =>
      cases hp : parse_line l tt with
      | some c =>
        simp [fromDescriptionLoop, hp, List.takeWhile_cons, List.filterMap_cons, ih]
      | none =>
        simp [fromDescriptionLoop, hp, List.takeWhile_cons]

/-- Closed instance of C4: a prose line is skipped; the first matching line
locks `MM:SS`; after lock-in the scan covers exactly the maximal matching
prefix, so the chapter list of a description with a broken middle line
stops at the break. A line whose timestamp uses a non-ASCII decimal digit
(`"5٣:00 - x"`, with ARABIC-INDIC DIGIT THREE in a `\d` slot) also locks
`MM:SS` — the regex matches even though the numeric parse will fail. -/
theorem from_description_lock_in_witness :
    fromDescriptionLoop ["In this episode, we explore", "00:00 - Intro"] none
      = fromDescriptionLoop ["00:00 - Intro"] none
    ∧ fromDescriptionLoop ["00:00 - Intro", "junk"] none
      = fromDescriptionLoop ["00:00 - Intro", "junk"] (some TimestampType.MmSs)
    ∧ fromDescriptionLoop ["5٣:00 - x", "00:01 - y"] none
      = fromDescriptionLoop ["5٣:00 - x", "00:01 - y"] (some TimestampType.MmSs)
    ∧ fromDescriptionLoop ["00:00 - Intro", "junk", "05:04 - Baboons"]
        (some TimestampType.MmSs)
      = (["00:00 - Intro", "junk", "05:04 - Baboons"].takeWhile
          (fun l => (parse_line l TimestampType.MmSs).isSome)).filterMap
          (fun l => parse_line l TimestampType.MmSs) :=
  ⟨from_description_lock_in.1 ["In this episode, we explore"] ["00:00 - Intro"]
      (by decide),
    from_description_lock_in.2.1 "00:00 - Intro" ["junk"] TimestampType.MmSs (by decide),
    from_description_lock_in.2.1 "5٣:00 - x" ["00:01 - y"] TimestampType.MmSs
      (by decide),
    from_description_lock_in.2.2 TimestampType.MmSs
      ["00:00 - Intro", "junk", "05:04 - Baboons"]⟩

lemma readId3Chapter_end (f : Id3Chapter) (ch : Chapter)
    (h : readId3Chapter f = .ok ch) :
    ch.«end» = if f.end_time = f.start_time then none else some (f.end_time : Int) := by
  unfold readId3Chapter at h
  cases hs : readSubframes (none, none) f.frames with
  | error e =>
    rw [hs] at h
    exact Except.noConfusion h
  | ok tl =>
    rw [hs] at h
    injection h with h
    rw [← h]
    by_cases he : f.end_time = f.start_time <;>
      simp [he, beq_iff_eq, Nat.cast_inj]

/-- C6: a chapter frame whose end equals its start reads back with
`end = none`; a frame with distinct start and end reads back with
`end = some`; on write, an absent end is emitted as `end_time = start_time`,
so an absent end round-trips through the frame representation to absent. -/
theorem mp3_end_instant_roundtrip :
    (∀ (f : Id3Chapter) (ch : Chapter), readId3Chapter f = .ok ch →
      (ch.«end» = none ↔ f.end_time = f.start_time))
    ∧ (∀ (f : Id3Chapter) (ch : Chapter), readId3Chapter f = .ok ch →
      f.end_time ≠ f.start_time → ch.«end» = some (f.end_time : Int))
    ∧ (∀ (i : Nat) (c : Chapter), c.«end» = none →
      (writeId3Chapter i c).end_time = (writeId3Chapter i c).start_time)
    ∧ (∀ (i : Nat) (c : Chapter) (ch : Chapter), c.«end» = none →
      readId3Chapter (writeId3Chapter i c) = .ok ch → ch.«end» = none) := by
  refine ⟨?_, ?_, ?_, ?_⟩
  · intro f ch h
    rw [readId3Chapter_end f ch h]
    by_cases he : f.end_time = f.start_time <;> simp [he]
  · intro f ch h hne
    rw [readId3Chapter_end f ch h]
    simp [hne]
  · intro i c hc
    simp [writeId3Chapter, hc]
  · intro i c ch hc h
    rw [readId3Chapter_end _ _ h]
    simp [writeId3Chapter, hc]

/-- Closed instance of C6: a frame with start 0 ms and end 42000 ms reads
back with end 42 s; a written endless chapter has equal offsets and reads
back endless. -/
theorem mp3_end_instant_roundtrip_witness :
    (readId3Chapter ⟨"chp1", 0, 42000, [Id3Content.text "A"]⟩
      = .ok (⟨0, some 42000, some "A", none, none, false, none⟩ : Chapter))
    ∧ (⟨0, some 42000, some "A", none, none, false, none⟩ : Chapter).«end» = some 42000
    ∧ (writeId3Chapter 0 (⟨7000, none, some "B", none, none, false, none⟩ : Chapter)).end_time
      = (writeId3Chapter 0 (⟨7000, none, some "B", none, none, false, none⟩ : Chapter)).start_time
    ∧ (readId3Chapter (writeId3Chapter 0 (⟨7000, none, some "B", none, none, false, none⟩ : Chapter))
        = .ok (⟨7000, none, some "B", none, none, false, none⟩ : Chapter))
    ∧ (⟨7000, none, some "B", none, none, false, none⟩ : Chapter).«end» = none :=
  ⟨by decide, by decide,
    mp3_end_instant_roundtrip.2.2.1 0 ⟨7000, none, some "B", none, none, false, none⟩ rfl,
    by decide,
    mp3_end_instant_roundtrip.2.2.2 0 ⟨7000, none, some "B", none, none, false, none⟩
      ⟨7000, none, some "B", none, none, false, none⟩ rfl (by decide)⟩

/-- C7: the chapter list returned from a tag read is sorted ascending by
start time, whatever the order of the frames in the container. -/
theorem from_mp3_sorted_by_start (frames : List Id3Chapter) (chapters : List Chapter)
    (h : from_mp3_tag frames = .ok chapters) :
    chapters.Pairwise (fun a b => a.start ≤ b.start) := by
  unfold from_mp3_tag at h
  cases hr : readFrames frames with
  | error e =>
    rw [hr] at h
    exact Except.noConfusion h
  | ok l =>
    rw [hr] at h
    simp only [Except.map] at h
    injection h with h
    exact h ▸ List.sorted_insertionSort _ l

/-- Closed instance of C7: frames supplied out of chronological order come
back sorted ascending by start. -/
theorem from_mp3_sorted_by_start_witness :
    List.Pairwise (fun a b : Chapter => a.start ≤ b.start)
      [(⟨1000, none, none, none, none, false, none⟩ : Chapter),
        (⟨5000, none, none, none, none, false, none⟩ : Chapter)] :=
  from_mp3_sorted_by_start
    [⟨"chp1", 5000, 5000, []⟩, ⟨"chp2", 1000, 1000, []⟩]
    [⟨1000, none, none, none, none, false, none⟩,
      ⟨5000, none, none, none, none, false, none⟩]
    (by decide)

end Chapters
